import Mathlib

/-!
Shallow embedding of the candidate resolution and convergence engine of the
intelligent-scraper repository (src/scraper.py and
src/semantic_scholar_scraper.py), together with proofs settling the frozen
claims about its specification.

Python strings are modelled as `List Char` (code-point lists); Python string
operations (`strip`, `lower`, `startswith`, `endswith`, `in`, `split`,
`join`, comparison) are modelled by the corresponding executable functions
below.
-/

namespace Scraper

/-- A Python string, modelled as its list of characters. -/
abbrev Str := List Char

/-- Characters removed by Python `str.strip()` (ASCII whitespace). -/
def pyIsSpace (c : Char) : Bool :=
  c = ' ' || c = '\t' || c = '\n' || c = '\r' || c = '\x0b' || c = '\x0c'

/-- Python `str.strip()`: remove leading and trailing whitespace. -/
def pyStrip (s : Str) : Str :=
  ((s.dropWhile pyIsSpace).reverse.dropWhile pyIsSpace).reverse

/-- Python `str.lower()` (ASCII case folding, sufficient for the URLs involved). -/
def lowerStr (s : Str) : Str := s.map Char.toLower

/-- Convert a Lean string literal to the `Str` model. -/
def strL (s : String) : Str := s.toList

/-- Python `s.startswith(pat)` (first argument is the pattern). The nested
match keeps `startsWith [] s` definitionally `true` for symbolic `s`. -/
def startsWith (pat s : Str) : Bool :=
  match pat with
  | [] => true
  | a :: as =>
    match s with
    | [] => false
    | b :: bs => a == b && startsWith as bs

/-- Python `s.endswith(pat)`. -/
def endsWith (pat s : Str) : Bool := startsWith pat.reverse s.reverse

/-- `GoogleScholarScraper._normalize_url` (src/scraper.py lines 313-327):
normalize relative scholar URLs to absolute ones. -/
def _normalize_url (url : Str) : Str :=
  if url = [] then []
  else if pyStrip url = [] then []
  else if startsWith (strL "//") (pyStrip url) then strL "https:" ++ pyStrip url
  else if startsWith (strL "http://") (pyStrip url)
      || startsWith (strL "https://") (pyStrip url) then pyStrip url
  else if startsWith (strL "/") (pyStrip url) then
    strL "https://scholar.google.com" ++ pyStrip url
  else pyStrip url

/-- Python `pat in s` substring test. -/
def isSubstr (pat : Str) : Str → Bool
  | [] => startsWith pat []
  | c :: rest => startsWith pat (c :: rest) || isSubstr pat rest

/-- Python string comparison `s1 ≤ s2` (lexicographic on code points). -/
def strLe : Str → Str → Bool
  | [], _ => true
  | _ :: _, [] => false
  | a :: as, b :: bs =>
    if a.toNat < b.toNat then true
    else if b.toNat < a.toNat then false
    else strLe as bs

/-- `GoogleScholarScraper._is_scholar_profile_link` (src/scraper.py lines
346-361): true iff the URL points to a Google Scholar profile/citation page. -/
def _is_scholar_profile_link (url : Str) : Bool :=
  if url = [] then false
  else if isSubstr (strL "scholar.googleusercontent.com") (lowerStr url)
      || isSubstr (strL "scholar.google.com/scholar_url") (lowerStr url) then false
  else if !(isSubstr (strL "scholar.google.com") (lowerStr url)) then false
  else isSubstr (strL "citations?") (lowerStr url)
    || isSubstr (strL "view_op=view_citation") (lowerStr url)
    || isSubstr (strL "scholar?oi=") (lowerStr url)

/-- The `repository_indicators` allow-list of `_score_candidate`
(src/scraper.py lines 373-391). -/
def repository_indicators : List Str :=
  [strL "arxiv.org", strL "researchgate.net", strL "academia.edu",
   strL "ieeexplore.ieee.org", strL "acm.org", strL "springer.com",
   strL "link.springer.com", strL "sciencedirect.com", strL "frontiersin.org",
   strL "nature.com", strL "science.org", strL "mdpi.com", strL "hindawi.com",
   strL "biorxiv.org", strL "medrxiv.org", strL "pmc.ncbi.nlm.nih.gov",
   strL "ncbi.nlm.nih.gov/pmc"]

/-- `GoogleScholarScraper._score_candidate` (src/scraper.py lines 363-398):
assign a priority score (lower is better) to a candidate download URL. -/
def _score_candidate (url source : Str) : Nat :=
  if endsWith (strL ".pdf") (lowerStr url) then 0
  else if isSubstr (strL "scholar.googleusercontent.com") (lowerStr url) then 0
  else if isSubstr (strL "pdf") (lowerStr url) then 1
  else if repository_indicators.any (fun ind => isSubstr ind (lowerStr url)) then 1
  else if _is_scholar_profile_link url then 9
  else if source = strL "row_data" ∨ source = strL "data_clk" then 2
  else 3

/-- A download-link candidate dict (`url`/`source`/`score`/`meta` keys, as
built by the `register_candidate` closures in src/scraper.py). -/
structure Candidate where
  url : Str
  source : Str
  score : Nat
  meta : List (Str × Str)
deriving DecidableEq

/-- The sort key of `_select_preferred_candidate`:
`(candidate.score, candidate.url)` compared lexicographically. -/
def candKeyLe (a b : Candidate) : Bool :=
  if a.score < b.score then true
  else if b.score < a.score then false
  else strLe a.url b.url

/-- Python's stable `sorted` on candidates with key `(score, url)`. -/
def pySortCands (l : List Candidate) : List Candidate :=
  l.insertionSort (fun a b => candKeyLe a b = true)

/-- Python's stable `sorted` on strings. -/
def pySortStrs (l : List Str) : List Str :=
  l.insertionSort (fun a b => strLe a b = true)

/-- `GoogleScholarScraper._select_preferred_candidate` (src/scraper.py lines
400-414): sort candidates with a non-empty URL by `(score, url)`, return the
first non-profile-link candidate, else the first sorted candidate, else none. -/
def _select_preferred_candidate (candidates : List Candidate) : Option Candidate :=
  if candidates = [] then none
  else
    match (pySortCands (candidates.filter (fun c => c.url ≠ []))).find?
        (fun c => !(_is_scholar_profile_link c.url)) with
    | some c => some c
    | none => (pySortCands (candidates.filter (fun c => c.url ≠ []))).head?

/-- The `register_candidate` closure of `_collect_inline_download_candidates`
(src/scraper.py lines 434-446).  State is the pair `(seen, candidates)`;
a duplicate (or empty, or non-http(s)) normalized URL leaves the state
unchanged. -/
def register_candidate (st : List Str × List Candidate) (url source : Str)
    (meta : List (Str × Str)) : List Str × List Candidate :=
  if _normalize_url url = [] ∨ _normalize_url url ∈ st.1 then st
  else if !(startsWith (strL "http://") (lowerStr (_normalize_url url))
      || startsWith (strL "https://") (lowerStr (_normalize_url url))) then st
  else (_normalize_url url :: st.1,
    st.2 ++ [⟨_normalize_url url, source,
      _score_candidate (_normalize_url url) source, meta⟩])

/-- `dict.setdefault`-style metadata merge of `_merge_candidate_lists`
(src/scraper.py lines 663-666): keys of `new` are added only when absent. -/
def mergeMeta (old new : List (Str × Str)) : List (Str × Str) :=
  new.foldl (fun acc kv => if acc.any (fun p => p.1 = kv.1) then acc else acc ++ [kv]) old

/-- Python `s.split("|")`. -/
def splitBar : Str → List Str
  | [] => [[]]
  | c :: rest =>
    if c = '|' then [] :: splitBar rest
    else
      match splitBar rest with
      | [] => [[c]]
      | r :: rs => (c :: r) :: rs

/-- Python `"|".join(parts)`. -/
def intercalateBar : List Str → Str
  | [] => []
  | [s] => s
  | s :: rest => s ++ '|' :: intercalateBar rest

/-- Python `set(s.split("|"))`, as a duplicate-free list. -/
def pySetSplit (s : Str) : List Str := (splitBar s).dedup

/-- Source-tag aggregation of `_merge_candidate_lists` (src/scraper.py lines
672-680): union the new source into the existing pipe-joined tag set. -/
def mergeSource (oldS newS : Str) : Str :=
  if newS ∈ pySetSplit oldS then oldS
  else intercalateBar
    (pySortStrs ((pySetSplit oldS ++ [newS]).filter (fun t => t ≠ [])))

/-- Merge one duplicate candidate into the stored entry (src/scraper.py lines
661-680): conservative metadata merge, minimum score, source-tag union. -/
def mergeCand (m c : Candidate) : Candidate :=
  { m with
    meta := mergeMeta m.meta c.meta,
    score := if c.score < m.score then c.score else m.score,
    source := mergeSource m.source c.source }

/-- One iteration of the merge loop of `_merge_candidate_lists`
(src/scraper.py lines 655-680). -/
def mergeStep (acc : List Candidate) (c : Candidate) : List Candidate :=
  if c.url = [] then acc
  else if acc.any (fun m => m.url = c.url) then
    acc.map (fun m => if m.url = c.url then mergeCand m c else m)
  else acc ++ [c]

/-- `GoogleScholarScraper._merge_candidate_lists` (src/scraper.py lines
651-683). -/
def _merge_candidate_lists (existing new : List Candidate) : List Candidate :=
  pySortCands ((existing ++ new).foldl mergeStep [])

/-- `SemanticScholarScraper._validate_pdf_link`
(src/semantic_scholar_scraper.py lines 487-553).  `probe` is the outcome of
the HEAD probe: `none` for a timeout/network error, `some (status, ctype)`
for a response with its status code and `Content-Type` header. -/
def _validate_pdf_link (url : Str) (probe : Option (Nat × Str)) : Bool :=
  if !(startsWith (strL "http") url) then false
  else
    match probe with
    | none => false
    | some (status, ctype) =>
      (decide (200 ≤ status) && decide (status < 400))
        && ((isSubstr (strL "application/pdf") (lowerStr ctype)
              || isSubstr (strL "pdf") (lowerStr ctype))
            || endsWith (strL ".pdf") (lowerStr url))

/-- Outcome of one `get_author_papers` attempt inside
`_fetch_author_papers`: success, a 429 rate-limit API error, another API
error (re-raised), or a generic exception (logged, loop broken). -/
inductive AttemptOutcome
  | success
  | rateLimit
  | apiError
  | otherError
deriving DecidableEq

/-- Observable result of `_fetch_author_papers`: papers returned, exception
propagated, or the empty fallback list after a generic error / exhausted
loop. -/
inductive FetchResult
  | returned
  | raised
  | emptyResult
deriving DecidableEq

/-- `SemanticScholarScraper.RATE_LIMIT_BACKOFF`
(src/semantic_scholar_scraper.py line 37). -/
def RATE_LIMIT_BACKOFF : List Nat := [10, 30, 60]

/-- The retry loop of `_fetch_author_papers` (src/semantic_scholar_scraper.py
lines 289-315), with the list of performed sleeps made explicit.  `remaining`
is the number of loop iterations left (`attempts = len(RATE_LIMIT_BACKOFF)+1`
initially). -/
def fetchLoop (outcomes : Nat → AttemptOutcome) : Nat → Nat → List Nat × FetchResult
  | _, 0 => ([], .emptyResult)
  | attempt, remaining + 1 =>
    match outcomes attempt with
    | .success => ([], .returned)
    | .apiError => ([], .raised)
    | .otherError => ([], .emptyResult)
    | .rateLimit =>
      if h : attempt < RATE_LIMIT_BACKOFF.length then
        (RATE_LIMIT_BACKOFF.get ⟨attempt, h⟩ ::
          (fetchLoop outcomes (attempt + 1) remaining).1,
         (fetchLoop outcomes (attempt + 1) remaining).2)
      else ([], .raised)

/-- `SemanticScholarScraper._fetch_author_papers` retry behaviour
(src/semantic_scholar_scraper.py lines 255-315), as a function of the
per-attempt outcomes; returns the performed sleeps and the final result. -/
def _fetch_author_papers (outcomes : Nat → AttemptOutcome) : List Nat × FetchResult :=
  fetchLoop outcomes 0 (RATE_LIMIT_BACKOFF.length + 1)

/-- A JSON-ish value as returned by `page.evaluate` to the citation-trend
extractor. -/
inductive JVal
  | jnum (n : Int)
  | jstr (s : Str)
  | jarr (items : List JVal)
  | jother

/-- ASCII digit test. -/
def isDigitC (c : Char) : Bool := 48 ≤ c.toNat && c.toNat ≤ 57

/-- Numeric value of a digit string. -/
def digitsToNat (ds : Str) : Nat := ds.foldl (fun acc c => acc * 10 + (c.toNat - 48)) 0

/-- Python `int(s)` on a string (signed decimal, surrounding whitespace
allowed); `none` models the `ValueError`. -/
def pyIntOfStr (s : Str) : Option Int :=
  match pyStrip s with
  | '-' :: ds =>
    if ds ≠ [] ∧ ds.all isDigitC then some (-(digitsToNat ds : Int)) else none
  | '+' :: ds =>
    if ds ≠ [] ∧ ds.all isDigitC then some ((digitsToNat ds : Int)) else none
  | ds =>
    if ds ≠ [] ∧ ds.all isDigitC then some ((digitsToNat ds : Int)) else none

/-- Python `int(x)` on a JSON value; `none` models `ValueError`/`TypeError`. -/
def pyInt : JVal → Option Int
  | .jnum n => some n
  | .jstr s => pyIntOfStr s
  | _ => none

/-- Decimal digits of a natural number (fuel-based so that it reduces). -/
def natToDigitsAux : Nat → Nat → Str
  | 0, _ => []
  | fuel + 1, n =>
    if n < 10 then [Char.ofNat (48 + n)]
    else natToDigitsAux fuel (n / 10) ++ [Char.ofNat (48 + n % 10)]

/-- Python `str(n)` for an integer. -/
def intToStr (n : Int) : Str :=
  if n < 0 then '-' :: natToDigitsAux (n.natAbs + 1) n.natAbs
  else natToDigitsAux (n.natAbs + 1) n.natAbs

/-- `citations = int(item[1]) if isinstance(item[1], (int, float)) else 0`
(src/scraper.py lines 1202 and 1609). -/
def trendCount : JVal → Int
  | .jnum n => n
  | _ => 0

/-- Per-item validation of the structured in-page data strategy of
`_extract_citation_trend` (src/scraper.py lines 1198-1213): `none` means the
item is dropped. -/
def trendItemJs : JVal → Option (Str × Int)
  | .jarr (a :: b :: _) =>
    match pyInt a with
    | none => none
    | some y =>
      if (intToStr y).length = 4 ∧ 0 ≤ trendCount b then
        some (intToStr y, trendCount b)
      else none
  | _ => none

/-- Per-item validation of the DOM data-attribute strategy of
`_extract_citation_trend` (src/scraper.py lines 1604-1613): only
`if year and citations >= 0` is checked. -/
def trendItemDom : JVal → Option (Str × Int)
  | .jarr (a :: b :: _) =>
    match pyInt a with
    | none => none
    | some y =>
      if intToStr y ≠ [] ∧ 0 ≤ trendCount b then
        some (intToStr y, trendCount b)
      else none
  | _ => none

/-- Series produced by the structured in-page data strategy
(src/scraper.py lines 1195-1213). -/
def extractTrendJs (chart : List JVal) : List (Str × Int) :=
  chart.filterMap trendItemJs

/-- Series produced by the DOM data-attribute strategy
(src/scraper.py lines 1604-1613). -/
def extractTrendDom (chart : List JVal) : List (Str × Int) :=
  chart.filterMap trendItemDom

/-- A harvested paper row; `payload` stands for the remaining fields of the
Python dict. -/
structure Paper where
  title : Str
  payload : Nat
deriving DecidableEq

/-- The pagination dedup key `paper['title'].lower().strip()`
(src/scraper.py line 206). -/
def title_key (t : Str) : Str := pyStrip (lowerStr t)

/-- The dedup filter of `_scrape_papers` (src/scraper.py lines 203-209):
keep each paper with a non-empty title whose key has not been seen. -/
def filterNewPapers : List Str → List Paper → List Paper
  | _, [] => []
  | seen, p :: ps =>
    if p.title ≠ [] ∧ title_key p.title ∉ seen then
      p :: filterNewPapers (title_key p.title :: seen) ps
    else filterNewPapers seen ps

/-- Words of a string, split on whitespace runs (fuel-based). -/
def wordsAux : Nat → Str → List Str
  | 0, _ => []
  | fuel + 1, s =>
    match s.dropWhile pyIsSpace with
    | [] => []
    | c :: rest =>
      (c :: rest.takeWhile (fun d => !(pyIsSpace d))) ::
        wordsAux fuel (rest.dropWhile (fun d => !(pyIsSpace d)))

/-- Words of a string, split on whitespace runs. -/
def specWords (s : Str) : List Str := wordsAux (s.length + 1) s

/-- Join words with single spaces. -/
def intercalateSp : List Str → Str
  | [] => []
  | [s] => s
  | s :: rest => s ++ ' ' :: intercalateSp rest

/-- Modelled from the spec: the claimed pagination dedup key, a
case-normalized, whitespace-collapsed title ("Deduplication key:
case-normalized, whitespace-collapsed title").  Used only to compare the
claim against the code's `title_key`. -/
def specCollapsedKey (t : Str) : Str := intercalateSp (specWords (lowerStr t))

/-- Characters allowed inside a DOI tail (`[^\s?&#]` in the patterns of
`_extract_doi_from_url`). -/
def doiAllowed (c : Char) : Bool := !(pyIsSpace c || c = '?' || c = '&' || c = '#')

/-- Consume a case-insensitive literal (given lowercase), returning the rest
of the string; models a literal regex fragment under `re.IGNORECASE`. -/
def matchCI : Str → Str → Option Str
  | [], s => some s
  | _ :: _, [] => none
  | p :: ps, c :: cs => if p = c.toLower then matchCI ps cs else none

/-- Match `10\.\d+/[^\s?&#]+` at the start of `s`, returning the matched
text (the captured DOI group of the patterns in `_extract_doi_from_url`). -/
def doiBody (s : Str) : Option Str :=
  match matchCI (strL "10.") s with
  | none => none
  | some rest =>
    if rest.takeWhile isDigitC = [] then none
    else
      match rest.drop (rest.takeWhile isDigitC).length with
      | '/' :: rest2 =>
        if rest2.takeWhile doiAllowed = [] then none
        else some (strL "10." ++ rest.takeWhile isDigitC ++ '/' :: rest2.takeWhile doiAllowed)
      | _ => none

/-- The alternation `(?:pdf|pdfdirect|abs|full)` of the first DOI pattern. -/
def p1Alts : List Str := [strL "pdf", strL "pdfdirect", strL "abs", strL "full"]

/-- Try the alternation branches in order, each followed by `/` and a DOI. -/
def tryAltsAux : List Str → Str → Option Str
  | [], _ => none
  | alt :: alts, s =>
    match matchCI alt s with
    | some rest =>
      match matchCI (strL "/") rest with
      | some rest2 =>
        match doiBody rest2 with
        | some g => some g
        | none => tryAltsAux alts s
      | none => tryAltsAux alts s
    | none => tryAltsAux alts s

/-- Pattern `/doi/(?:pdf|pdfdirect|abs|full)/(10\.\d+/[^\s?&#]+)` anchored at
the current position. -/
def p1At (s : Str) : Option Str :=
  match matchCI (strL "/doi/") s with
  | none => none
  | some rest => tryAltsAux p1Alts rest

/-- Pattern `doi\.org/(10\.\d+/[^\s?&#]+)` anchored at the current position. -/
def p2At (s : Str) : Option Str :=
  match matchCI (strL "doi.org/") s with
  | none => none
  | some rest => doiBody rest

/-- Pattern `doi[=:](10\.\d+/[^\s?&#]+)` anchored at the current position. -/
def p3At (s : Str) : Option Str :=
  match matchCI (strL "doi") s with
  | none => none
  | some rest =>
    match rest with
    | '=' :: rest2 => doiBody rest2
    | ':' :: rest2 => doiBody rest2
    | _ => none

/-- Pattern `/doi/(10\.\d+/[^\s?&#]+)` anchored at the current position. -/
def p4At (s : Str) : Option Str :=
  match matchCI (strL "/doi/") s with
  | none => none
  | some rest => doiBody rest

/-- `re.search`: try the anchored pattern at each position, left to right. -/
def reSearch (f : Str → Option Str) : Str → Option Str
  | [] => f []
  | c :: rest =>
    match f (c :: rest) with
    | some g => some g
    | none => reSearch f rest

/-- `re.sub(r'[.,;:)\]]+$', '', doi)`: strip trailing punctuation. -/
def rstripPunct (s : Str) : Str :=
  (s.reverse.dropWhile
    (fun c => c = '.' || c = ',' || c = ';' || c = ':' || c = ')' || c = ']')).reverse

/-- The pattern cascade of `_extract_doi_from_url`: first match whose cleaned
DOI starts with `10.` wins. -/
def tryDoiAux : List (Str → Option Str) → Str → Str
  | [], _ => []
  | pat :: pats, url =>
    match reSearch pat url with
    | some g =>
      if startsWith (strL "10.") (rstripPunct g) then rstripPunct g
      else tryDoiAux pats url
    | none => tryDoiAux pats url

/-- `GoogleScholarScraper._extract_doi_from_url` (src/scraper.py lines
1019-1049). -/
def _extract_doi_from_url (url : Str) : Str :=
  if url = [] then [] else tryDoiAux [p1At, p2At, p3At, p4At] url

end Scraper

namespace Scraper

theorem dropWhile_head?_not (p : Char → Bool) :
    ∀ (l : Str) (c : Char), (l.dropWhile p).head? = some c → p c = false := by
  intro l
  induction l with
  | nil => intro c h; simp at h
  | cons a l ih =>
    intro c h
    rw [List.dropWhile_cons] at h
    by_cases hp : p a
    · rw [if_pos hp] at h
      exact ih c h
    · rw [if_neg hp] at h
      simp at h
      subst h
      simpa using hp

theorem dropWhile_of_head?_not (p : Char → Bool) (l : Str)
    (h : ∀ c, l.head? = some c → p c = false) : l.dropWhile p = l := by
  cases l with
  | nil => rfl
  | cons a l =>
    rw [List.dropWhile_cons, if_neg]
    simp [h a rfl]

theorem dropWhile_idem (p : Char → Bool) (l : Str) :
    (l.dropWhile p).dropWhile p = l.dropWhile p :=
  dropWhile_of_head?_not p _ (dropWhile_head?_not p l)

/-- The first character of a stripped string is not whitespace. -/
theorem pyStrip_head?_not (s : Str) (c : Char)
    (h : (pyStrip s).head? = some c) : pyIsSpace c = false := by
  unfold pyStrip at h
  rw [List.head?_reverse] at h
  set A := s.dropWhile pyIsSpace with hA
  set B := A.reverse.dropWhile pyIsSpace with hB
  have hsuf : B <:+ A.reverse := List.dropWhile_suffix pyIsSpace
  obtain ⟨r, hr⟩ := hsuf
  have hBne : B ≠ [] := by
    intro hnil
    rw [hnil] at h
    simp at h
  have : (r ++ B).getLast? = B.getLast? := List.getLast?_append_of_ne_nil r hBne
  rw [hr, List.getLast?_reverse] at this
  rw [← this] at h
  exact dropWhile_head?_not pyIsSpace s c h

/-- The last character of a stripped string is not whitespace. -/
theorem pyStrip_getLast?_not (s : Str) (c : Char)
    (h : (pyStrip s).getLast? = some c) : pyIsSpace c = false := by
  unfold pyStrip at h
  rw [List.getLast?_reverse] at h
  exact dropWhile_head?_not pyIsSpace _ c h

/-- A string whose first and last characters are not whitespace is unchanged
by `pyStrip`. -/
theorem pyStrip_of_clean (l : Str)
    (h1 : ∀ c, l.head? = some c → pyIsSpace c = false)
    (h2 : ∀ c, l.getLast? = some c → pyIsSpace c = false) :
    pyStrip l = l := by
  unfold pyStrip
  rw [dropWhile_of_head?_not pyIsSpace l h1]
  rw [dropWhile_of_head?_not pyIsSpace l.reverse (by
    intro c hc
    rw [List.head?_reverse] at hc
    exact h2 c hc)]
  exact List.reverse_reverse l

theorem pyStrip_idem (s : Str) : pyStrip (pyStrip s) = pyStrip s :=
  pyStrip_of_clean (pyStrip s) (pyStrip_head?_not s) (pyStrip_getLast?_not s)

theorem ne_nil_of_head?_some (l : Str) (c : Char) (h : l.head? = some c) :
    l ≠ [] := by
  intro hn
  subst hn
  simp at h

theorem startsWith_iff (pat : Str) : ∀ s, startsWith pat s = true ↔ pat <+: s := by
  induction pat with
  | nil =>
    intro s
    simp [startsWith, List.nil_prefix]
  | cons a as ih =>
    intro s
    cases s with
    | nil =>
      simp only [startsWith, Bool.false_eq_true, false_iff]
      intro h
      exact absurd h.length_le (by simp)
    | cons b bs =>
      simp only [startsWith, Bool.and_eq_true, beq_iff_eq, ih bs,
        List.cons_prefix_cons]

theorem head?_not_of_eq (l : Str) (a : Char) (ha : l.head? = some a)
    (hp : pyIsSpace a = false) :
    ∀ c, l.head? = some c → pyIsSpace c = false := by
  intro c hc
  rw [ha] at hc
  injection hc with h
  rw [← h]
  exact hp

/-- A URL already of the form `https://…` with no trailing whitespace is a
fixed point of `_normalize_url`. -/
theorem normalize_fix_https (v : Str)
    (hlast : ∀ c, (strL "https://" ++ v).getLast? = some c → pyIsSpace c = false) :
    _normalize_url (strL "https://" ++ v) = strL "https://" ++ v := by
  have hstrip : pyStrip (strL "https://" ++ v) = strL "https://" ++ v :=
    pyStrip_of_clean _ (head?_not_of_eq _ 'h' rfl (by decide)) hlast
  unfold _normalize_url
  rw [hstrip]
  rfl

/-- A URL already of the form `http://…` with no trailing whitespace is a
fixed point of `_normalize_url`. -/
theorem normalize_fix_http (v : Str)
    (hlast : ∀ c, (strL "http://" ++ v).getLast? = some c → pyIsSpace c = false) :
    _normalize_url (strL "http://" ++ v) = strL "http://" ++ v := by
  have hstrip : pyStrip (strL "http://" ++ v) = strL "http://" ++ v :=
    pyStrip_of_clean _ (head?_not_of_eq _ 'h' rfl (by decide)) hlast
  unfold _normalize_url
  rw [hstrip]
  rfl

/-- A stripped string matching none of the rewrite conditions is a fixed
point of `_normalize_url`. -/
theorem normalize_fix_plain (u : Str) (hstrip : pyStrip u = u)
    (h2 : startsWith (strL "//") u = false)
    (h3 : startsWith (strL "http://") u = false)
    (h4 : startsWith (strL "https://") u = false)
    (h5 : startsWith (strL "/") u = false) :
    _normalize_url u = u := by
  by_cases h0 : u = []
  · rw [h0]; rfl
  · unfold _normalize_url
    rw [hstrip, if_neg h0, if_neg h0, h2, h3, h4, h5]
    rfl

/-- C10 helper: the result of `pyStrip` has whitespace-free ends, packaged for
appends. -/
theorem strip_append_last (lit : Str) (url : Str) (h1 : pyStrip url ≠ []) :
    ∀ c, (lit ++ pyStrip url).getLast? = some c → pyIsSpace c = false := by
  intro c hc
  rw [List.getLast?_append_of_ne_nil lit h1] at hc
  exact pyStrip_getLast?_not url c hc

end Scraper

namespace Scraper

/-- **C10** — URL normalization is idempotent: for every input string `u`,
`_normalize_url (_normalize_url u) = _normalize_url u`; a URL the function has
already scheme-qualified (an `https:`-prefixed protocol-relative URL or a
`scholar.google.com`-resolved relative path) is returned unchanged on
re-normalization. -/
theorem c10_normalize_url_idem (url : Str) :
    _normalize_url (_normalize_url url) = _normalize_url url := by
  by_cases h0 : url = []
  · rw [h0]
    rfl
  · by_cases h1 : pyStrip url = []
    · have hnil : _normalize_url url = [] := by
        unfold _normalize_url
        rw [if_neg h0, if_pos h1]
      rw [hnil]
      rfl
    · have hstraight : _normalize_url url =
          if startsWith (strL "//") (pyStrip url) then strL "https:" ++ pyStrip url
          else if startsWith (strL "http://") (pyStrip url)
              || startsWith (strL "https://") (pyStrip url) then pyStrip url
          else if startsWith (strL "/") (pyStrip url) then
            strL "https://scholar.google.com" ++ pyStrip url
          else pyStrip url := by
        unfold _normalize_url
        rw [if_neg h0, if_neg h1]
      by_cases h2 : startsWith (strL "//") (pyStrip url) = true
      · -- protocol-relative URL: "https:" is prepended
        obtain ⟨w, hw⟩ := (startsWith_iff _ _).mp h2
        rw [hstraight, if_pos h2, ← hw]
        have hlast := strip_append_last (strL "https:") url h1
        rw [← hw] at hlast
        have hshape : strL "https:" ++ (strL "//" ++ w) = strL "https://" ++ w := by
          rfl
        rw [hshape] at hlast ⊢
        exact normalize_fix_https w hlast
      · rw [hstraight, if_neg h2]
        by_cases h3 : (startsWith (strL "http://") (pyStrip url)
            || startsWith (strL "https://") (pyStrip url)) = true
        · -- already scheme-qualified: returned as-is
          rw [if_pos h3]
          have hlast := pyStrip_getLast?_not url
          rcases Bool.or_eq_true_iff.mp h3 with hcase | hcase
          · obtain ⟨w, hw⟩ := (startsWith_iff _ _).mp hcase
            rw [← hw] at hlast ⊢
            exact normalize_fix_http w hlast
          · obtain ⟨w, hw⟩ := (startsWith_iff _ _).mp hcase
            rw [← hw] at hlast ⊢
            exact normalize_fix_https w hlast
        · rw [if_neg h3]
          by_cases h5 : startsWith (strL "/") (pyStrip url) = true
          · -- relative path: resolved against scholar.google.com
            rw [if_pos h5]
            have hlast := strip_append_last (strL "https://scholar.google.com") url h1
            have hshape : strL "https://scholar.google.com" ++ pyStrip url =
                strL "https://" ++ (strL "scholar.google.com" ++ pyStrip url) := by
              rfl
            rw [hshape] at hlast ⊢
            exact normalize_fix_https _ hlast
          · rw [if_neg h5]
            have h3' := Bool.or_eq_false_iff.mp (Bool.eq_false_iff.mpr h3)
            exact normalize_fix_plain (pyStrip url) (pyStrip_idem url)
              (Bool.eq_false_iff.mpr h2) h3'.1 h3'.2 (Bool.eq_false_iff.mpr h5)

end Scraper

namespace Scraper

/-- **C9** — The DOI-from-URL extractor maps the three reference inputs of the
spec to `10.1234/example.5678`, `10.1122/abcd.efgh`, and the empty string
respectively. -/
theorem c9_extract_doi_from_url :
    _extract_doi_from_url (strL "https://doi.org/10.1234/example.5678")
      = strL "10.1234/example.5678" ∧
    _extract_doi_from_url (strL "https://pub.org/doi/pdf/10.1122/abcd.efgh?download=1")
      = strL "10.1122/abcd.efgh" ∧
    _extract_doi_from_url (strL "https://example.org/articles/2023") = strL "" := by
  refine ⟨?_, ?_, ?_⟩ <;> decide

theorem isSubstr_iff (pat : Str) : ∀ s, isSubstr pat s = true ↔ pat <:+: s := by
  intro s
  induction s with
  | nil =>
    simp only [isSubstr, startsWith_iff, List.infix_nil, List.prefix_nil]
  | cons c rest ih =>
    simp only [isSubstr, Bool.or_eq_true, startsWith_iff, ih, List.infix_cons_iff]

theorem isSubstr_appPdf (ct : Str)
    (h : isSubstr (strL "application/pdf") ct = true) :
    isSubstr (strL "pdf") ct = true := by
  rw [isSubstr_iff] at h ⊢
  exact List.IsInfix.trans ((isSubstr_iff _ _).mp (by decide)) h

/-- **C5** — For a probed URL, the link validator accepts iff the HTTP status
is in 200–399 and either the `Content-Type` indicates a PDF or the URL itself
ends with `.pdf` (case-insensitively); failing either conjunct it reports the
link not live. -/
theorem c5_validate_pdf_link (url ctype : Str) (status : Nat)
    (hhttp : startsWith (strL "http") url = true) :
    _validate_pdf_link url (some (status, ctype)) = true ↔
      ((200 ≤ status ∧ status < 400) ∧
        (isSubstr (strL "pdf") (lowerStr ctype) = true ∨
          endsWith (strL ".pdf") (lowerStr url) = true)) := by
  unfold _validate_pdf_link
  rw [hhttp]
  simp only [Bool.not_true, Bool.false_eq_true, if_false,
    Bool.and_eq_true, Bool.or_eq_true, decide_eq_true_iff]
  constructor
  · rintro ⟨⟨h1, h2⟩, h3⟩
    refine ⟨⟨h1, h2⟩, ?_⟩
    rcases h3 with (hct | hct) | hu
    · exact Or.inl (isSubstr_appPdf _ hct)
    · exact Or.inl hct
    · exact Or.inr hu
  · rintro ⟨⟨h1, h2⟩, h3⟩
    refine ⟨⟨h1, h2⟩, ?_⟩
    rcases h3 with hct | hu
    · exact Or.inl (Or.inr hct)
    · exact Or.inr hu

/-- Witness for C5 at a concrete probed URL. -/
theorem c5_validate_pdf_link_witness :
    startsWith (strL "http") (strL "https://x.org/a.PDF") = true ∧
      (_validate_pdf_link (strL "https://x.org/a.PDF") (some (200, strL "text/html")) = true ↔
        ((200 ≤ 200 ∧ 200 < 400) ∧
          (isSubstr (strL "pdf") (lowerStr (strL "text/html")) = true ∨
            endsWith (strL ".pdf") (lowerStr (strL "https://x.org/a.PDF")) = true))) :=
  ⟨by decide, c5_validate_pdf_link (strL "https://x.org/a.PDF") (strL "text/html") 200 (by decide)⟩

end Scraper

namespace Scraper

/-- **C6** — A client rate-limited on every attempt retries exactly
`RATE_LIMIT_BACKOFF.length = 3` times, sleeping 10s, 30s, 60s between
attempts, and then raises; a call succeeding on an earlier attempt performs
only the sleeps already scheduled before it and no further retries. -/
theorem c6_backoff_termination :
    _fetch_author_papers (fun _ => AttemptOutcome.rateLimit)
      = ([10, 30, 60], FetchResult.raised) ∧
    ∀ (outcomes : Nat → AttemptOutcome) (k : Nat), k < 4 →
      outcomes k = AttemptOutcome.success →
      (∀ i, i < k → outcomes i = AttemptOutcome.rateLimit) →
      _fetch_author_papers outcomes = (RATE_LIMIT_BACKOFF.take k, FetchResult.returned) := by
  refine ⟨by decide, ?_⟩
  intro outcomes k hk hsucc hprev
  interval_cases k
  · simp [_fetch_author_papers, fetchLoop, hsucc, RATE_LIMIT_BACKOFF]
  · have h0 := hprev 0 (by omega)
    simp [_fetch_author_papers, fetchLoop, hsucc, h0, RATE_LIMIT_BACKOFF]
  · have h0 := hprev 0 (by omega)
    have h1 := hprev 1 (by omega)
    simp [_fetch_author_papers, fetchLoop, hsucc, h0, h1, RATE_LIMIT_BACKOFF]
  · have h0 := hprev 0 (by omega)
    have h1 := hprev 1 (by omega)
    have h2 := hprev 2 (by omega)
    simp [_fetch_author_papers, fetchLoop, hsucc, h0, h1, h2, RATE_LIMIT_BACKOFF]

/-- Witness for C6: success on attempt 1 (after one rate-limited attempt)
sleeps only 10s. -/
theorem c6_backoff_termination_witness :
    (1 : Nat) < 4 ∧
    _fetch_author_papers
        (fun n => if n = 1 then AttemptOutcome.success else AttemptOutcome.rateLimit)
      = ([10], FetchResult.returned) :=
  ⟨by omega,
    c6_backoff_termination.2
      (fun n => if n = 1 then AttemptOutcome.success else AttemptOutcome.rateLimit)
      1 (by omega) (by decide)
      (fun i hi => by
        have : i = 0 := by omega
        subst this
        rfl)⟩

end Scraper

namespace Scraper

theorem trendItemJs_some {j : JVal} {it : Str × Int}
    (h : trendItemJs j = some it) : it.1.length = 4 ∧ 0 ≤ it.2 := by
  cases j with
  | jarr items =>
    match items with
    | [] => simp [trendItemJs] at h
    | [a] => simp [trendItemJs] at h
    | a :: b :: rest =>
      simp only [trendItemJs] at h
      cases hy : pyInt a with
      | none => rw [hy] at h; simp at h
      | some y =>
        rw [hy] at h
        replace h : (if (intToStr y).length = 4 ∧ 0 ≤ trendCount b then
            some (intToStr y, trendCount b) else none) = some it := h
        by_cases hc : (intToStr y).length = 4 ∧ 0 ≤ trendCount b
        · rw [if_pos hc] at h
          injection h with h
          rw [← h]
          exact hc
        · rw [if_neg hc] at h
          simp at h
  | jnum n => simp [trendItemJs] at h
  | jstr s => simp [trendItemJs] at h
  | jother => simp [trendItemJs] at h

theorem trendItemDom_some {j : JVal} {it : Str × Int}
    (h : trendItemDom j = some it) : it.1 ≠ [] ∧ 0 ≤ it.2 := by
  cases j with
  | jarr items =>
    match items with
    | [] => simp [trendItemDom] at h
    | [a] => simp [trendItemDom] at h
    | a :: b :: rest =>
      simp only [trendItemDom] at h
      cases hy : pyInt a with
      | none => rw [hy] at h; simp at h
      | some y =>
        rw [hy] at h
        replace h : (if intToStr y ≠ [] ∧ 0 ≤ trendCount b then
            some (intToStr y, trendCount b) else none) = some it := h
        by_cases hc : intToStr y ≠ [] ∧ 0 ≤ trendCount b
        · rw [if_pos hc] at h
          injection h with h
          rw [← h]
          exact hc
        · rw [if_neg hc] at h
          simp at h
  | jnum n => simp [trendItemDom] at h
  | jstr s => simp [trendItemDom] at h
  | jother => simp [trendItemDom] at h

/-- **C7 (counterexample)** — The DOM data-attribute strategy retains the item
`[123, 5]` as the series point `("123", 5)` even though `"123"` is not a
4-digit year, contradicting the claim that every strategy drops such items. -/
theorem c7_counterexample :
    extractTrendDom [JVal.jarr [JVal.jnum 123, JVal.jnum 5]] = [(strL "123", 5)] ∧
    (strL "123").length ≠ 4 := by
  refine ⟨?_, by decide⟩
  decide

/-- **C7 (amended)** — The structured in-page data strategy keeps only items
whose rendered year has exactly 4 characters and whose count is non-negative,
and yields the empty series when every item is invalid; both strategies drop
negative counts; but the DOM data-attribute strategy only requires a
parseable year (it retains non-4-digit years). -/
theorem c7_trend_validation :
    (∀ chart item, item ∈ extractTrendJs chart → item.1.length = 4 ∧ 0 ≤ item.2) ∧
    (∀ chart, (∀ j ∈ chart, trendItemJs j = none) → extractTrendJs chart = []) ∧
    (∀ (a : JVal) (r : List JVal) (n : Int), n < 0 →
      trendItemJs (JVal.jarr (a :: JVal.jnum n :: r)) = none ∧
      trendItemDom (JVal.jarr (a :: JVal.jnum n :: r)) = none) ∧
    (∀ (a b : JVal) (r : List JVal) (y : Int), pyInt a = some y →
      (intToStr y).length ≠ 4 → trendItemJs (JVal.jarr (a :: b :: r)) = none) ∧
    (∀ chart item, item ∈ extractTrendDom chart → item.1 ≠ [] ∧ 0 ≤ item.2) := by
  refine ⟨?_, ?_, ?_, ?_, ?_⟩
  · intro chart item hmem
    obtain ⟨j, _, hj⟩ := List.mem_filterMap.mp hmem
    exact trendItemJs_some hj
  · intro chart h
    exact List.filterMap_eq_nil_iff.mpr h
  · intro a r n hn
    constructor
    · simp only [trendItemJs]
      cases hy : pyInt a with
      | none => rfl
      | some y =>
        show (if (intToStr y).length = 4 ∧ 0 ≤ trendCount (JVal.jnum n) then
            some (intToStr y, trendCount (JVal.jnum n)) else none) = none
        rw [if_neg]
        rintro ⟨-, h0⟩
        simp only [trendCount] at h0
        omega
    · simp only [trendItemDom]
      cases hy : pyInt a with
      | none => rfl
      | some y =>
        show (if intToStr y ≠ [] ∧ 0 ≤ trendCount (JVal.jnum n) then
            some (intToStr y, trendCount (JVal.jnum n)) else none) = none
        rw [if_neg]
        rintro ⟨-, h0⟩
        simp only [trendCount] at h0
        omega
  · intro a b r y hy hlen
    simp only [trendItemJs, hy]
    rw [if_neg]
    rintro ⟨h4, -⟩
    exact hlen h4
  · intro chart item hmem
    obtain ⟨j, _, hj⟩ := List.mem_filterMap.mp hmem
    exact trendItemDom_some hj

/-- Witness for C7: a negative count is dropped by both strategies, and a
series produced by the structured strategy from a valid item passes the
validation. -/
theorem c7_trend_validation_witness :
    trendItemJs (JVal.jarr [JVal.jnum 2020, JVal.jnum (-1)]) = none ∧
    trendItemDom (JVal.jarr [JVal.jnum 2020, JVal.jnum (-1)]) = none ∧
    ((strL "2020", (7 : Int)).1.length = 4 ∧ (0 : Int) ≤ (strL "2020", (7 : Int)).2) :=
  ⟨(c7_trend_validation.2.2.1 (JVal.jnum 2020) [] (-1) (by omega)).1,
   (c7_trend_validation.2.2.1 (JVal.jnum 2020) [] (-1) (by omega)).2,
   c7_trend_validation.1 [JVal.jarr [JVal.jnum 2020, JVal.jnum 7]] (strL "2020", 7)
     (by decide)⟩

end Scraper

namespace Scraper
theorem filterNewPapers_cons (seen : List Str) (p : Paper) (ps : List Paper) :
    filterNewPapers seen (p :: ps) =
      if p.title ≠ [] ∧ title_key p.title ∉ seen then
        p :: filterNewPapers (title_key p.title :: seen) ps
      else filterNewPapers seen ps := rfl

theorem filterNew_find? (k : Str) :
    ∀ (ps : List Paper) (seen : List Str),
      (filterNewPapers seen ps).find? (fun p => title_key p.title == k) =
        if k ∈ seen then none
        else (ps.filter (fun p => p.title ≠ [])).find? (fun p => title_key p.title == k) := by
  intro ps
  induction ps with
  | nil =>
    intro seen
    simp [filterNewPapers]
  | cons p ps ih =>
    intro seen
    by_cases ht : p.title ≠ [] ∧ title_key p.title ∉ seen
    · rw [filterNewPapers_cons, if_pos ht,
        List.filter_cons_of_pos (by simpa using ht.1)]
      by_cases hk : title_key p.title = k
      · have e1 : (p :: filterNewPapers (title_key p.title :: seen) ps).find?
            (fun q => title_key q.title == k) = some p :=
          List.find?_cons_of_pos _ (by simpa using hk)
        have e2 : (p :: ps.filter (fun q => q.title ≠ [])).find?
            (fun q => title_key q.title == k) = some p :=
          List.find?_cons_of_pos _ (by simpa using hk)
        rw [e1, e2, if_neg (by rw [← hk]; exact ht.2)]
      · have e1 : (p :: filterNewPapers (title_key p.title :: seen) ps).find?
            (fun q => title_key q.title == k)
            = (filterNewPapers (title_key p.title :: seen) ps).find?
              (fun q => title_key q.title == k) :=
          List.find?_cons_of_neg _ (by simpa using hk)
        have e2 : (p :: ps.filter (fun q => q.title ≠ [])).find?
            (fun q => title_key q.title == k)
            = (ps.filter (fun q => q.title ≠ [])).find?
              (fun q => title_key q.title == k) :=
          List.find?_cons_of_neg _ (by simpa using hk)
        rw [e1, e2, ih (title_key p.title :: seen)]
        by_cases hks : k ∈ seen
        · rw [if_pos (List.mem_cons_of_mem _ hks), if_pos hks]
        · rw [if_neg (by
            intro hmem
            rcases List.mem_cons.mp hmem with h | h
            · exact hk h.symm
            · exact hks h), if_neg hks]
    · rw [filterNewPapers_cons, if_neg ht, ih seen]
      by_cases htt : p.title = []
      · rw [List.filter_cons_of_neg (by simpa using htt)]
      · have hseen : title_key p.title ∈ seen := by
          by_contra hno
          exact ht ⟨htt, hno⟩
        rw [List.filter_cons_of_pos (by simpa using htt)]
        by_cases hks : k ∈ seen
        · rw [if_pos hks, if_pos hks]
        · have e2 : (p :: ps.filter (fun q => q.title ≠ [])).find?
              (fun q => title_key q.title == k)
              = (ps.filter (fun q => q.title ≠ [])).find?
                (fun q => title_key q.title == k) :=
            List.find?_cons_of_neg _ (by
              simp only [beq_iff_eq]
              intro h
              exact hks (h ▸ hseen))
          rw [if_neg hks, if_neg hks, e2]

theorem filterNew_nodup :
    ∀ (ps : List Paper) (seen : List Str),
      ((filterNewPapers seen ps).map (fun p => title_key p.title)).Nodup ∧
      ∀ p ∈ filterNewPapers seen ps, title_key p.title ∉ seen := by
  intro ps
  induction ps with
  | nil =>
    intro seen
    simp [filterNewPapers]
  | cons p ps ih =>
    intro seen
    by_cases ht : p.title ≠ [] ∧ title_key p.title ∉ seen
    · rw [filterNewPapers_cons, if_pos ht]
      obtain ⟨ihn, ihs⟩ := ih (title_key p.title :: seen)
      refine ⟨?_, ?_⟩
      · rw [List.map_cons, List.nodup_cons]
        refine ⟨?_, ihn⟩
        intro hmem
        obtain ⟨q, hq, hkey⟩ := List.mem_map.mp hmem
        exact ihs q hq (hkey ▸ List.mem_cons_self _ _)
      · intro q hq
        rcases List.mem_cons.mp hq with h | h
        · rw [h]; exact ht.2
        · intro hseen
          exact ihs q h (List.mem_cons_of_mem _ hseen)
    · rw [filterNewPapers_cons, if_neg ht]
      exact ih seen

theorem filterNew_sub :
    ∀ (ps : List Paper) (seen : List Str) (p : Paper),
      p ∈ filterNewPapers seen ps → p ∈ ps ∧ p.title ≠ [] := by
  intro ps
  induction ps with
  | nil =>
    intro seen p h
    simp [filterNewPapers] at h
  | cons q ps ih =>
    intro seen p h
    by_cases ht : q.title ≠ [] ∧ title_key q.title ∉ seen
    · rw [filterNewPapers_cons, if_pos ht] at h
      rcases List.mem_cons.mp h with h | h
      · exact ⟨h ▸ List.mem_cons_self _ _, h ▸ ht.1⟩
      · obtain ⟨hmem, hne⟩ := ih _ p h
        exact ⟨List.mem_cons_of_mem _ hmem, hne⟩
    · rw [filterNewPapers_cons, if_neg ht] at h
      obtain ⟨hmem, hne⟩ := ih _ p h
      exact ⟨List.mem_cons_of_mem _ hmem, hne⟩

/-- **C8 (counterexample)** — Two records whose titles are equal after case
folding *and whitespace collapsing* (`"A  b"` vs `"a b"`) are *not* treated as
the same paper: the code's key (`lower().strip()`) does not collapse internal
whitespace, so both records are retained. -/
theorem c8_counterexample :
    specCollapsedKey (strL "A  b") = specCollapsedKey (strL "a b") ∧
    filterNewPapers [] [⟨strL "A  b", 1⟩, ⟨strL "a b", 2⟩]
      = [⟨strL "A  b", 1⟩, ⟨strL "a b", 2⟩] := by
  refine ⟨by decide, by decide⟩

/-- **C8 (amended)** — The pagination dedup key is the case-normalized,
leading/trailing-whitespace-stripped title (internal whitespace is not
collapsed): among records with equal keys only the first-seen instance with a
non-empty title is retained, the retained records have pairwise distinct keys,
and every retained record is one of the input records. -/
theorem c8_dedup_key :
    (∀ (ps : List Paper) (k : Str),
      (filterNewPapers [] ps).find? (fun p => title_key p.title == k) =
        (ps.filter (fun p => p.title ≠ [])).find? (fun p => title_key p.title == k)) ∧
    (∀ ps : List Paper,
      ((filterNewPapers [] ps).map (fun p => title_key p.title)).Nodup) ∧
    (∀ (ps : List Paper) (p : Paper),
      p ∈ filterNewPapers [] ps → p ∈ ps ∧ p.title ≠ []) := by
  refine ⟨?_, ?_, ?_⟩
  · intro ps k
    rw [filterNew_find? k ps []]
    rw [if_neg (List.not_mem_nil k)]
  · intro ps
    exact (filterNew_nodup ps []).1
  · intro ps p h
    exact filterNew_sub ps [] p h

/-- Witness for C8 at a concrete input: of two records sharing the key
`"same"`, only the first is retained and found under that key. -/
theorem c8_dedup_key_witness :
    (filterNewPapers [] [⟨strL "Same", 1⟩, ⟨strL " same ", 2⟩]).find?
        (fun p => title_key p.title == strL "same")
      = ([⟨strL "Same", 1⟩, ⟨strL " same ", 2⟩].filter
          (fun p => p.title ≠ [])).find? (fun p => title_key p.title == strL "same") ∧
    Paper.mk (strL "Same") 1 ∈ [Paper.mk (strL "Same") 1, Paper.mk (strL " same ") 2] ∧
    (Paper.mk (strL "Same") 1).title ≠ [] :=
  ⟨c8_dedup_key.1 [⟨strL "Same", 1⟩, ⟨strL " same ", 2⟩] (strL "same"),
   c8_dedup_key.2.2 [⟨strL "Same", 1⟩, ⟨strL " same ", 2⟩] ⟨strL "Same", 1⟩ (by decide)⟩

end Scraper

namespace Scraper

theorem charToNat_inj {a b : Char} (h : a.toNat = b.toNat) : a = b :=
  Char.ext (UInt32.toNat.inj h)

theorem strLe_cons (a b : Char) (as bs : Str) :
    strLe (a :: as) (b :: bs) = true ↔
      a.toNat < b.toNat ∨ (a.toNat = b.toNat ∧ strLe as bs = true) := by
  simp only [strLe]
  by_cases h1 : a.toNat < b.toNat
  · simp [h1]
  · by_cases h2 : b.toNat < a.toNat
    · rw [if_neg h1, if_pos h2]
      simp only [Bool.false_eq_true, false_iff]
      rintro (h | ⟨h, -⟩) <;> omega
    · have he : a.toNat = b.toNat := by omega
      rw [if_neg h1, if_neg h2]
      constructor
      · intro h
        exact Or.inr ⟨he, h⟩
      · rintro (h | ⟨-, h⟩)
        · omega
        · exact h

theorem strLe_refl : ∀ s, strLe s s = true := by
  intro s
  induction s with
  | nil => rfl
  | cons a as ih => exact (strLe_cons a a as as).mpr (Or.inr ⟨rfl, ih⟩)

theorem strLe_total : ∀ a b, (strLe a b || strLe b a) = true := by
  intro a
  induction a with
  | nil => intro b; rfl
  | cons x xs ih =>
    intro b
    cases b with
    | nil => rfl
    | cons y ys =>
      rcases Nat.lt_trichotomy x.toNat y.toNat with h | h | h
      · have := (strLe_cons x y xs ys).mpr (Or.inl h)
        simp [this]
      · rcases Bool.or_eq_true_iff.mp (ih ys) with hx | hx
        · have := (strLe_cons x y xs ys).mpr (Or.inr ⟨h, hx⟩)
          simp [this]
        · have := (strLe_cons y x ys xs).mpr (Or.inr ⟨h.symm, hx⟩)
          simp [this]
      · have := (strLe_cons y x ys xs).mpr (Or.inl h)
        simp [this]

theorem strLe_trans : ∀ a b c, strLe a b = true → strLe b c = true →
    strLe a c = true := by
  intro a
  induction a with
  | nil => intro b c _ _; rfl
  | cons x xs ih =>
    intro b c h1 h2
    cases b with
    | nil => simp [strLe] at h1
    | cons y ys =>
      cases c with
      | nil => simp [strLe] at h2
      | cons z zs =>
        rcases (strLe_cons x y xs ys).mp h1 with hxy | ⟨hxy, hxs⟩ <;>
          rcases (strLe_cons y z ys zs).mp h2 with hyz | ⟨hyz, hys⟩
        · exact (strLe_cons x z xs zs).mpr (Or.inl (by omega))
        · exact (strLe_cons x z xs zs).mpr (Or.inl (by omega))
        · exact (strLe_cons x z xs zs).mpr (Or.inl (by omega))
        · exact (strLe_cons x z xs zs).mpr (Or.inr ⟨by omega, ih ys zs hxs hys⟩)

theorem strLe_antisymm : ∀ a b, strLe a b = true → strLe b a = true → a = b := by
  intro a
  induction a with
  | nil =>
    intro b _ h2
    cases b with
    | nil => rfl
    | cons y ys => simp [strLe] at h2
  | cons x xs ih =>
    intro b h1 h2
    cases b with
    | nil => simp [strLe] at h1
    | cons y ys =>
      rcases (strLe_cons x y xs ys).mp h1 with hxy | ⟨hxy, hxs⟩ <;>
        rcases (strLe_cons y x ys xs).mp h2 with hyx | ⟨hyx, hys⟩
      · omega
      · omega
      · omega
      · rw [charToNat_inj hxy, ih ys hxs hys]

theorem candKeyLe_iff (a b : Candidate) :
    candKeyLe a b = true ↔
      a.score < b.score ∨ (a.score = b.score ∧ strLe a.url b.url = true) := by
  unfold candKeyLe
  by_cases h1 : a.score < b.score
  · simp [h1]
  · by_cases h2 : b.score < a.score
    · rw [if_neg h1, if_pos h2]
      simp only [Bool.false_eq_true, false_iff]
      rintro (h | ⟨h, -⟩) <;> omega
    · have he : a.score = b.score := by omega
      rw [if_neg h1, if_neg h2]
      constructor
      · intro h
        exact Or.inr ⟨he, h⟩
      · rintro (h | ⟨-, h⟩)
        · omega
        · exact h

theorem candKeyLe_trans : ∀ a b c : Candidate, candKeyLe a b = true →
    candKeyLe b c = true → candKeyLe a c = true := by
  intro a b c h1 h2
  rcases (candKeyLe_iff a b).mp h1 with h | ⟨hs, hu⟩ <;>
    rcases (candKeyLe_iff b c).mp h2 with h' | ⟨hs', hu'⟩
  · exact (candKeyLe_iff a c).mpr (Or.inl (by omega))
  · exact (candKeyLe_iff a c).mpr (Or.inl (by omega))
  · exact (candKeyLe_iff a c).mpr (Or.inl (by omega))
  · exact (candKeyLe_iff a c).mpr
      (Or.inr ⟨by omega, strLe_trans _ _ _ hu hu'⟩)

theorem candKeyLe_total : ∀ a b : Candidate,
    (candKeyLe a b || candKeyLe b a) = true := by
  intro a b
  rcases Nat.lt_trichotomy a.score b.score with h | h | h
  · have := (candKeyLe_iff a b).mpr (Or.inl h)
    simp [this]
  · rcases Bool.or_eq_true_iff.mp (strLe_total a.url b.url) with hx | hx
    · have := (candKeyLe_iff a b).mpr (Or.inr ⟨h, hx⟩)
      simp [this]
    · have := (candKeyLe_iff b a).mpr (Or.inr ⟨h.symm, hx⟩)
      simp [this]
  · have := (candKeyLe_iff b a).mpr (Or.inl h)
    simp [this]

theorem candKeyLe_refl (a : Candidate) : candKeyLe a a = true :=
  (candKeyLe_iff a a).mpr (Or.inr ⟨rfl, strLe_refl a.url⟩)

theorem candKeyLe_antisymm_key {a b : Candidate} (h1 : candKeyLe a b = true)
    (h2 : candKeyLe b a = true) : a.score = b.score ∧ a.url = b.url := by
  rcases (candKeyLe_iff a b).mp h1 with h | ⟨hs, hu⟩ <;>
    rcases (candKeyLe_iff b a).mp h2 with h' | ⟨hs', hu'⟩
  · omega
  · omega
  · omega
  · exact ⟨hs, strLe_antisymm _ _ hu hu'⟩

theorem find?_min_of_pairwise {α : Type} {le : α → α → Bool} {p : α → Bool}
    (hrefl : ∀ a, le a a = true) :
    ∀ {l : List α}, l.Pairwise (fun a b => le a b = true) →
      ∀ {c}, l.find? p = some c → ∀ d ∈ l, p d = true → le c d = true := by
  intro l hp
  induction hp with
  | nil =>
    intro c hfind
    simp at hfind
  | @cons x xs hx _ ih =>
    intro c hfind d hd hpd
    by_cases hpx : p x = true
    · rw [List.find?_cons_of_pos _ hpx] at hfind
      injection hfind with hfind
      subst hfind
      rcases List.mem_cons.mp hd with h | h
      · rw [h]
        exact hrefl x
      · exact hx d h
    · rw [List.find?_cons_of_neg _ (by simpa using hpx)] at hfind
      rcases List.mem_cons.mp hd with h | h
      · rw [h] at hpd
        exact absurd hpd hpx
      · exact ih hfind d h hpd

theorem head?_min_of_pairwise {α : Type} {le : α → α → Bool}
    (hrefl : ∀ a, le a a = true) :
    ∀ {l : List α}, l.Pairwise (fun a b => le a b = true) →
      ∀ {c}, l.head? = some c → ∀ d ∈ l, le c d = true := by
  intro l hp
  cases hp with
  | nil =>
    intro c hc
    simp at hc
  | @cons x xs hx hxs =>
    intro c hc d hd
    injection hc with hc
    subst hc
    rcases List.mem_cons.mp hd with h | h
    · rw [h]
      exact hrefl x
    · exact hx d h

/-- Full characterization of `_select_preferred_candidate` on a non-empty
list of candidates with non-empty URLs: the result is a member minimizing
`(score, url)` among non-profile candidates when one exists, and among all
candidates when every candidate is a profile link. -/
theorem select_spec (cs : List Candidate) (h1 : cs ≠ [])
    (h2 : ∀ c ∈ cs, c.url ≠ []) :
    ∃ c, _select_preferred_candidate cs = some c ∧ c ∈ cs ∧
      (∀ d ∈ cs, _is_scholar_profile_link d.url = false → candKeyLe c d = true) ∧
      ((∃ d ∈ cs, _is_scholar_profile_link d.url = false) →
        _is_scholar_profile_link c.url = false) ∧
      ((∀ d ∈ cs, _is_scholar_profile_link d.url = true) →
        ∀ d ∈ cs, candKeyLe c d = true) := by
  have hfilter : cs.filter (fun c => c.url ≠ []) = cs :=
    List.filter_eq_self.mpr (by
      intro a ha
      simpa using h2 a ha)
  have hpair : (pySortCands cs).Pairwise (fun a b => candKeyLe a b = true) := by
    haveI : IsTotal Candidate (fun a b => candKeyLe a b = true) := ⟨fun a b => by
      rcases Bool.or_eq_true_iff.mp (candKeyLe_total a b) with h | h
      · exact Or.inl h
      · exact Or.inr h⟩
    haveI : IsTrans Candidate (fun a b => candKeyLe a b = true) :=
      ⟨fun a b c => candKeyLe_trans a b c⟩
    exact List.sorted_insertionSort _ cs
  have hmemiff : ∀ x : Candidate, x ∈ pySortCands cs ↔ x ∈ cs := fun x =>
    (List.perm_insertionSort _ cs).mem_iff
  cases hfind : (pySortCands cs).find?
      (fun c => !(_is_scholar_profile_link c.url)) with
  | some c =>
    have hresult : _select_preferred_candidate cs = some c := by
      unfold _select_preferred_candidate
      rw [if_neg h1, hfilter, hfind]
    have hmem : c ∈ cs :=
      (hmemiff c).mp (List.mem_of_find?_eq_some hfind)
    have hcprof : _is_scholar_profile_link c.url = false := by
      have := List.find?_some hfind
      simpa using this
    refine ⟨c, hresult, hmem, ?_, fun _ => hcprof, ?_⟩
    · intro d hd hdprof
      exact find?_min_of_pairwise candKeyLe_refl hpair hfind d
        ((hmemiff d).mpr hd) (by simpa using hdprof)
    · intro hall
      exact absurd (hall c hmem) (by simp [hcprof])
  | none =>
    have hall : ∀ x ∈ cs, _is_scholar_profile_link x.url = true := by
      intro x hx
      have := List.find?_eq_none.mp hfind x ((hmemiff x).mpr hx)
      simpa using this
    cases hhead : (pySortCands cs).head? with
    | none =>
      exfalso
      rw [List.head?_eq_none_iff] at hhead
      have hlen : (pySortCands cs).length = cs.length :=
        (List.perm_insertionSort (fun a b => candKeyLe a b = true) cs).length_eq
      rw [hhead] at hlen
      exact h1 (List.eq_nil_of_length_eq_zero hlen.symm)
    | some c =>
      have hresult : _select_preferred_candidate cs = some c := by
        unfold _select_preferred_candidate
        rw [if_neg h1, hfilter, hfind, hhead]
      have hmem : c ∈ cs := by
        have : c ∈ pySortCands cs := by
          cases hs : pySortCands cs with
          | nil => rw [hs] at hhead; simp at hhead
          | cons x xs =>
            rw [hs] at hhead
            injection hhead with hhead
            rw [← hhead]
            exact List.mem_cons_self _ _
        exact (hmemiff c).mp this
      refine ⟨c, hresult, hmem, ?_, ?_, ?_⟩
      · intro d hd hdprof
        rw [hall d hd] at hdprof
        simp at hdprof
      · rintro ⟨d, hd, hdprof⟩
        rw [hall d hd] at hdprof
        simp at hdprof
      · intro _ d hd
        exact head?_min_of_pairwise candKeyLe_refl hpair hhead d
          ((hmemiff d).mpr hd)

end Scraper

namespace Scraper

/-- **C1 (counterexample)** — With two profile-page candidates, the resolver
returns a profile-page candidate even though it is not the sole candidate
present, contradicting the claim's "only when that candidate is the sole
candidate present". -/
theorem c1_counterexample :
    _select_preferred_candidate
        [⟨strL "https://scholar.google.com/citations?user=aaa", strL "", 9, []⟩,
         ⟨strL "https://scholar.google.com/citations?user=bbb", strL "", 9, []⟩]
      = some ⟨strL "https://scholar.google.com/citations?user=aaa", strL "", 9, []⟩ ∧
    _is_scholar_profile_link
        (strL "https://scholar.google.com/citations?user=aaa") = true ∧
    ([⟨strL "https://scholar.google.com/citations?user=aaa", strL "", 9, []⟩,
      ⟨strL "https://scholar.google.com/citations?user=bbb", strL "", 9, []⟩]
        : List Candidate).length = 2 := by
  refine ⟨by decide, by decide, by decide⟩

/-- **C1 (amended)** — For every non-empty candidate list (with the store
invariant of non-empty URLs), the resolver returns the candidate with the
lowest `(score, url)` among those whose URL does not point back to the
Google Scholar profile page when such a candidate exists; when *every*
candidate is a profile-page candidate (in particular when a profile-page
candidate is the sole candidate), it returns the lowest-keyed profile-page
candidate rather than none. -/
theorem c1_select_policy (cs : List Candidate) (h1 : cs ≠ [])
    (h2 : ∀ c ∈ cs, c.url ≠ []) :
    ∃ c, _select_preferred_candidate cs = some c ∧ c ∈ cs ∧
      (∀ d ∈ cs, _is_scholar_profile_link d.url = false → candKeyLe c d = true) ∧
      ((∃ d ∈ cs, _is_scholar_profile_link d.url = false) →
        _is_scholar_profile_link c.url = false) ∧
      ((∀ d ∈ cs, _is_scholar_profile_link d.url = true) →
        ∀ d ∈ cs, candKeyLe c d = true) :=
  select_spec cs h1 h2

/-- Witness for C1: the single-candidate fallback on a sole profile-page
candidate. -/
theorem c1_select_policy_witness :
    ∃ c, _select_preferred_candidate
        [⟨strL "https://scholar.google.com/citations?user=aaa", strL "", 9, []⟩]
      = some c ∧
      c ∈ [Candidate.mk (strL "https://scholar.google.com/citations?user=aaa") (strL "") 9 []] ∧
      (∀ d ∈ [Candidate.mk (strL "https://scholar.google.com/citations?user=aaa") (strL "") 9 []],
        _is_scholar_profile_link d.url = false → candKeyLe c d = true) ∧
      ((∃ d ∈ [Candidate.mk (strL "https://scholar.google.com/citations?user=aaa") (strL "") 9 []],
        _is_scholar_profile_link d.url = false) →
        _is_scholar_profile_link c.url = false) ∧
      ((∀ d ∈ [Candidate.mk (strL "https://scholar.google.com/citations?user=aaa") (strL "") 9 []],
        _is_scholar_profile_link d.url = true) →
        ∀ d ∈ [Candidate.mk (strL "https://scholar.google.com/citations?user=aaa") (strL "") 9 []],
          candKeyLe c d = true) :=
  c1_select_policy
    [⟨strL "https://scholar.google.com/citations?user=aaa", strL "", 9, []⟩]
    (by decide) (by decide)

/-- **C2** — For a fixed set of candidates (unique by URL, per the store
invariant), the resolver's selection is invariant under permutation of the
registration order; in particular the pair from the spec's example returns
the `.pdf` URL in either order. -/
theorem c2_selection_deterministic :
    (∀ (l₁ l₂ : List Candidate), l₁.Perm l₂ →
      (l₁.map Candidate.url).Nodup → (∀ c ∈ l₁, c.url ≠ []) →
      _select_preferred_candidate l₁ = _select_preferred_candidate l₂) ∧
    _select_preferred_candidate
        [⟨strL "https://scholar.example/citations?..", strL "", 9, []⟩,
         ⟨strL "https://host.org/paper.pdf", strL "", 0, []⟩]
      = some ⟨strL "https://host.org/paper.pdf", strL "", 0, []⟩ ∧
    _select_preferred_candidate
        [⟨strL "https://host.org/paper.pdf", strL "", 0, []⟩,
         ⟨strL "https://scholar.example/citations?..", strL "", 9, []⟩]
      = some ⟨strL "https://host.org/paper.pdf", strL "", 0, []⟩ := by
  refine ⟨?_, by decide, by decide⟩
  intro l₁ l₂ hperm hnodup hurls
  by_cases hnil : l₁ = []
  · subst hnil
    rw [List.Perm.eq_nil hperm.symm]
  · have hnil₂ : l₂ ≠ [] := by
      intro h
      exact hnil (List.Perm.eq_nil (h ▸ hperm))
    have hurls₂ : ∀ c ∈ l₂, c.url ≠ [] := fun c hc =>
      hurls c (hperm.mem_iff.mpr hc)
    obtain ⟨c₁, hres₁, hmem₁, hmin₁, hnp₁, hallmin₁⟩ := select_spec l₁ hnil hurls
    obtain ⟨c₂, hres₂, hmem₂, hmin₂, hnp₂, hallmin₂⟩ := select_spec l₂ hnil₂ hurls₂
    have hmem₂' : c₂ ∈ l₁ := hperm.mem_iff.mpr hmem₂
    have hmem₁' : c₁ ∈ l₂ := hperm.mem_iff.mp hmem₁
    have hkey : c₁.score = c₂.score ∧ c₁.url = c₂.url := by
      by_cases hex : ∃ d ∈ l₁, _is_scholar_profile_link d.url = false
      · obtain ⟨d, hd, hdprof⟩ := hex
        have hc₁ : _is_scholar_profile_link c₁.url = false := hnp₁ ⟨d, hd, hdprof⟩
        have hc₂ : _is_scholar_profile_link c₂.url = false :=
          hnp₂ ⟨d, hperm.mem_iff.mp hd, hdprof⟩
        exact candKeyLe_antisymm_key (hmin₁ c₂ hmem₂' hc₂) (hmin₂ c₁ hmem₁' hc₁)
      · have hall : ∀ d ∈ l₁, _is_scholar_profile_link d.url = true := by
          intro d hd
          rcases Bool.eq_false_or_eq_true (_is_scholar_profile_link d.url) with h | h
          · exact h
          · exact absurd ⟨d, hd, h⟩ hex
        have hall₂ : ∀ d ∈ l₂, _is_scholar_profile_link d.url = true := fun d hd =>
          hall d (hperm.mem_iff.mpr hd)
        exact candKeyLe_antisymm_key (hallmin₁ hall c₂ hmem₂')
          (hallmin₂ hall₂ c₁ hmem₁')
    have : c₁ = c₂ :=
      List.inj_on_of_nodup_map hnodup hmem₁ hmem₂' hkey.2
    rw [hres₁, hres₂, this]

/-- Witness for C2: the spec's example pair in its two registration orders. -/
theorem c2_selection_deterministic_witness :
    _select_preferred_candidate
        [⟨strL "https://scholar.example/citations?..", strL "", 9, []⟩,
         ⟨strL "https://host.org/paper.pdf", strL "", 0, []⟩]
      = _select_preferred_candidate
        [⟨strL "https://host.org/paper.pdf", strL "", 0, []⟩,
         ⟨strL "https://scholar.example/citations?..", strL "", 9, []⟩] :=
  c2_selection_deterministic.1
    [⟨strL "https://scholar.example/citations?..", strL "", 9, []⟩,
     ⟨strL "https://host.org/paper.pdf", strL "", 0, []⟩]
    [⟨strL "https://host.org/paper.pdf", strL "", 0, []⟩,
     ⟨strL "https://scholar.example/citations?..", strL "", 9, []⟩]
    (List.Perm.swap _ _ _) (by decide) (by decide)

end Scraper

namespace Scraper

theorem lookup_append_some {k v : Str} :
    ∀ (l₁ l₂ : List (Str × Str)), l₁.lookup k = some v →
      (l₁ ++ l₂).lookup k = some v := by
  intro l₁
  induction l₁ with
  | nil =>
    intro l₂ h
    simp [List.lookup] at h
  | cons kv rest ih =>
    intro l₂ h
    rw [List.cons_append]
    rw [List.lookup_cons] at h ⊢
    cases hk : (k == kv.1) with
    | true => rw [hk] at h; exact h
    | false =>
      rw [hk] at h
      exact ih l₂ h

theorem lookup_append_none {k : Str} :
    ∀ (l₁ l₂ : List (Str × Str)), l₁.lookup k = none →
      (l₁ ++ l₂).lookup k = l₂.lookup k := by
  intro l₁
  induction l₁ with
  | nil =>
    intro l₂ _
    rfl
  | cons kv rest ih =>
    intro l₂ h
    rw [List.cons_append]
    rw [List.lookup_cons] at h ⊢
    cases hk : (k == kv.1) with
    | true => rw [hk] at h; simp at h
    | false =>
      rw [hk] at h
      exact ih l₂ h

theorem lookup_none_not_any {k : Str} :
    ∀ (l : List (Str × Str)), l.lookup k = none →
      l.any (fun p => p.1 = k) = false := by
  intro l
  induction l with
  | nil => intro _; rfl
  | cons kv rest ih =>
    intro h
    rw [List.lookup_cons] at h
    cases hk : (k == kv.1) with
    | true => rw [hk] at h; simp at h
    | false =>
      rw [hk] at h
      rw [List.any_cons, ih h]
      have : ¬ kv.1 = k := by
        intro he
        rw [he] at hk
        simp at hk
      simp [this]

/-- Existing metadata keys are never overwritten by `mergeMeta`. -/
theorem mergeMeta_keeps {k v : Str} :
    ∀ (new old : List (Str × Str)), old.lookup k = some v →
      (mergeMeta old new).lookup k = some v := by
  intro new
  induction new with
  | nil =>
    intro old h
    exact h
  | cons kv rest ih =>
    intro old h
    show (mergeMeta (if old.any (fun p => p.1 = kv.1) then old
      else old ++ [kv]) rest).lookup k = some v
    by_cases ha : old.any (fun p => p.1 = kv.1) = true
    · rw [if_pos ha]
      exact ih old h
    · rw [if_neg (by simpa using ha)]
      exact ih _ (lookup_append_some old [kv] h)

/-- New metadata keys are added by `mergeMeta`. -/
theorem mergeMeta_adds {k v : Str} :
    ∀ (new old : List (Str × Str)), old.lookup k = none →
      new.lookup k = some v → (mergeMeta old new).lookup k = some v := by
  intro new
  induction new with
  | nil =>
    intro old _ h
    simp [List.lookup] at h
  | cons kv rest ih =>
    intro old hold h
    rw [List.lookup_cons] at h
    show (mergeMeta (if old.any (fun p => p.1 = kv.1) then old
      else old ++ [kv]) rest).lookup k = some v
    cases hk : (k == kv.1) with
    | true =>
      rw [hk] at h
      injection h with h
      rw [if_neg (by simp [lookup_none_not_any old hold,
        show kv.1 = k from (beq_iff_eq.mp hk).symm])]
      refine mergeMeta_keeps rest _ ?_
      rw [lookup_append_none old [kv] hold, List.lookup_cons, hk, h]
    | false =>
      rw [hk] at h
      by_cases ha : old.any (fun p => p.1 = kv.1) = true
      · rw [if_pos ha]
        exact ih old hold h
      · rw [if_neg (by simpa using ha)]
        refine ih _ ?_ h
        rw [lookup_append_none old [kv] hold, List.lookup_cons, hk]
        rfl

/-- A non-empty pipe-free string splits to itself. -/
theorem splitBar_single : ∀ (s : Str), s ≠ [] → '|' ∉ s → splitBar s = [s] := by
  intro s
  induction s with
  | nil => intro h _; exact absurd rfl h
  | cons c rest ih =>
    intro _ hp
    have hc : ¬ c = '|' := fun he => hp (he ▸ List.mem_cons_self c rest)
    show (if c = '|' then [] :: splitBar rest
      else match splitBar rest with
        | [] => [[c]]
        | r :: rs => (c :: r) :: rs) = [c :: rest]
    rw [if_neg hc]
    cases hrest : rest with
    | nil => rfl
    | cons d ds =>
      rw [← hrest, ih (by rw [hrest]; exact List.cons_ne_nil d ds)
        (fun hm => hp (List.mem_cons_of_mem c hm))]

/-- Splitting after joining a pipe-free head. -/
theorem splitBar_append (b : Str) :
    ∀ (a : Str), '|' ∉ a → splitBar (a ++ '|' :: b) = a :: splitBar b := by
  intro a
  induction a with
  | nil =>
    intro _
    show (if '|' = '|' then [] :: splitBar b
      else match splitBar ('|' :: b) with
        | [] => [['|']]
        | r :: rs => ('|' :: r) :: rs) = [] :: splitBar b
    rw [if_pos rfl]
  | cons x xs ih =>
    intro hp
    have hx : ¬ x = '|' := fun he => hp (he ▸ List.mem_cons_self x xs)
    have hxs : '|' ∉ xs := fun hm => hp (List.mem_cons_of_mem x hm)
    show (if x = '|' then [] :: splitBar (xs ++ '|' :: b)
      else match splitBar (xs ++ '|' :: b) with
        | [] => [[x]]
        | r :: rs => (x :: r) :: rs) = (x :: xs) :: splitBar b
    rw [if_neg hx, ih hxs]

end Scraper

namespace Scraper

theorem pySetSplit_single (s : Str) (h : s ≠ []) (hp : '|' ∉ s) :
    pySetSplit s = [s] := by
  unfold pySetSplit
  rw [splitBar_single s h hp]
  simp

theorem pySetSplit_pair_mem (a b : Str) (hpa : '|' ∉ a)
    (hb : b ≠ []) (hpb : '|' ∉ b) (t : Str) :
    t ∈ pySetSplit (intercalateBar [a, b]) ↔ t = a ∨ t = b := by
  show t ∈ (splitBar (a ++ '|' :: b)).dedup ↔ _
  rw [List.mem_dedup, splitBar_append b a hpa, splitBar_single b hb hpb]
  simp

/-- The tag set produced by `mergeSource` is the union of the existing single
tag and the new tag. -/
theorem mergeSource_tags (s1 s2 : Str) (h1 : s1 ≠ []) (hp1 : '|' ∉ s1)
    (h2 : s2 ≠ []) (hp2 : '|' ∉ s2) (t : Str) :
    t ∈ pySetSplit (mergeSource s1 s2) ↔ t = s1 ∨ t = s2 := by
  unfold mergeSource
  rw [pySetSplit_single s1 h1 hp1]
  by_cases he : s2 = s1
  · rw [if_pos (by rw [he]; exact List.mem_cons_self _ _)]
    rw [pySetSplit_single s1 h1 hp1, he]
    simp
  · rw [if_neg (by
      intro hm
      rcases List.mem_cons.mp hm with h | h
      · exact he h
      · simp at h)]
    have hfilter : ([s1] ++ [s2]).filter (fun t => t ≠ []) = [s1, s2] := by
      simp [List.filter_cons, h1, h2]
    rw [hfilter]
    by_cases hle : strLe s1 s2 = true
    · have hsort : pySortStrs [s1, s2] = [s1, s2] := by
        simp [pySortStrs, List.insertionSort, List.orderedInsert, hle]
      rw [hsort]
      exact pySetSplit_pair_mem s1 s2 hp1 h2 hp2 t
    · have hsort : pySortStrs [s1, s2] = [s2, s1] := by
        simp [pySortStrs, List.insertionSort, List.orderedInsert, hle]
      rw [hsort]
      rw [pySetSplit_pair_mem s2 s1 hp2 h1 hp1 t]
      exact or_comm

theorem mergeCand_score (c1 c2 : Candidate) :
    (mergeCand c1 c2).score = Nat.min c1.score c2.score := by
  show (if c2.score < c1.score then c2.score else c1.score) = _
  split
  · exact (min_eq_right (Nat.le_of_lt (by assumption))).symm
  · exact (min_eq_left (by omega)).symm

theorem merge_pair (c1 c2 : Candidate) (hurl : c2.url = c1.url)
    (hne : c1.url ≠ []) :
    _merge_candidate_lists [c1] [c2] = [mergeCand c1 c2] := by
  unfold _merge_candidate_lists
  have s1 : mergeStep [] c1 = [c1] := by
    unfold mergeStep
    rw [if_neg hne]
    rfl
  have s2 : mergeStep [c1] c2 = [mergeCand c1 c2] := by
    unfold mergeStep
    rw [if_neg (by rw [hurl]; exact hne)]
    rw [if_pos (by simp [hurl])]
    rw [List.map_cons, if_pos hurl.symm]
    rfl
  show pySortCands (mergeStep (mergeStep [] c1) c2) = [mergeCand c1 c2]
  rw [s1, s2]
  rfl

/-- **C3 (counterexample)** — Registering the same URL twice through
`register_candidate` (`"meta"` then `"row_data"`, scores 3 and 2) leaves a
single entry carrying the *first* registration's score 3 and source tag
`"meta"`: the stored score is not the minimum of the scores seen and the
source tags are not the union. -/
theorem c3_counterexample :
    ((register_candidate (register_candidate ([], [])
        (strL "https://example.org/item") (strL "meta") [])
        (strL "https://example.org/item") (strL "row_data") []).2.map
      Candidate.score = [3]) ∧
    _score_candidate (strL "https://example.org/item") (strL "row_data") = 2 ∧
    ((register_candidate (register_candidate ([], [])
        (strL "https://example.org/item") (strL "meta") [])
        (strL "https://example.org/item") (strL "row_data") []).2.map
      Candidate.source = [strL "meta"]) ∧
    ¬ ((register_candidate (register_candidate ([], [])
        (strL "https://example.org/item") (strL "meta") [])
        (strL "https://example.org/item") (strL "row_data") []).2.map
      Candidate.score = [Nat.min 3 2]) := by
  refine ⟨by decide, by decide, by decide, by decide⟩

/-- **C3 (amended)** — `register_candidate` treats a duplicate registration as
a no-op (one entry remains, keeping the first registration's score, source and
metadata unchanged); the min-score / source-union / non-destructive-metadata
merge semantics belong to `_merge_candidate_lists`, which combines two
candidates for the same URL into one entry with the minimum score, the union
of the source tag sets, and metadata in which a key already present is never
overwritten and missing keys are added. -/
theorem c3_register_merge :
    (∀ (st : List Str × List Candidate) (url s1 : Str) (m1 : List (Str × Str))
        (s2 : Str) (m2 : List (Str × Str)),
      register_candidate (register_candidate st url s1 m1) url s2 m2
        = register_candidate st url s1 m1) ∧
    (∀ c1 c2 : Candidate, c2.url = c1.url → c1.url ≠ [] →
      c1.source ≠ [] → '|' ∉ c1.source → c2.source ≠ [] → '|' ∉ c2.source →
      ∃ m, _merge_candidate_lists [c1] [c2] = [m] ∧
        m.url = c1.url ∧
        m.score = Nat.min c1.score c2.score ∧
        (∀ t, t ∈ pySetSplit m.source ↔ t = c1.source ∨ t = c2.source) ∧
        (∀ k v, c1.meta.lookup k = some v → m.meta.lookup k = some v) ∧
        (∀ k v, c1.meta.lookup k = none → c2.meta.lookup k = some v →
          m.meta.lookup k = some v)) := by
  constructor
  · intro st url s1 m1 s2 m2
    by_cases h1 : _normalize_url url = [] ∨ _normalize_url url ∈ st.1
    · have e : register_candidate st url s1 m1 = st := by
        unfold register_candidate
        rw [if_pos h1]
      rw [e]
      unfold register_candidate
      rw [if_pos h1]
    · by_cases h2 : (!(startsWith (strL "http://") (lowerStr (_normalize_url url))
          || startsWith (strL "https://") (lowerStr (_normalize_url url)))) = true
      · have e : register_candidate st url s1 m1 = st := by
          unfold register_candidate
          rw [if_neg h1, if_pos h2]
        rw [e]
        unfold register_candidate
        rw [if_neg h1, if_pos h2]
      · have e : register_candidate st url s1 m1 =
            (_normalize_url url :: st.1, st.2 ++ [⟨_normalize_url url, s1,
              _score_candidate (_normalize_url url) s1, m1⟩]) := by
          unfold register_candidate
          rw [if_neg h1, if_neg h2]
        rw [e]
        unfold register_candidate
        rw [if_pos (Or.inr (List.mem_cons_self _ _))]
  · intro c1 c2 hurl hne hs1 hp1 hs2 hp2
    refine ⟨mergeCand c1 c2, merge_pair c1 c2 hurl hne, rfl,
      mergeCand_score c1 c2, ?_, ?_, ?_⟩
    · intro t
      exact mergeSource_tags c1.source c2.source hs1 hp1 hs2 hp2 t
    · intro k v h
      exact mergeMeta_keeps c2.meta c1.meta h
    · intro k v h1 h2
      exact mergeMeta_adds c2.meta c1.meta h1 h2

/-- Witness for C3: a concrete duplicate registration is a no-op, and a
concrete same-URL merge yields score `min 3 2 = 2`, tags
`{"meta", "row_data"}`, and first-seen-wins metadata. -/
theorem c3_register_merge_witness :
    (register_candidate (register_candidate ([], [])
        (strL "https://example.org/item") (strL "meta") [])
        (strL "https://example.org/item") (strL "row_data") []
      = register_candidate ([], []) (strL "https://example.org/item")
          (strL "meta") []) ∧
    (∃ m, _merge_candidate_lists
        [⟨strL "https://x.org/a", strL "meta", 3, [(strL "k", strL "v1")]⟩]
        [⟨strL "https://x.org/a", strL "row_data", 2,
          [(strL "k", strL "v2"), (strL "k2", strL "w")]⟩] = [m] ∧
      m.url = strL "https://x.org/a" ∧
      m.score = Nat.min 3 2 ∧
      (∀ t, t ∈ pySetSplit m.source ↔ t = strL "meta" ∨ t = strL "row_data") ∧
      (∀ k v, [(strL "k", strL "v1")].lookup k = some v →
        m.meta.lookup k = some v) ∧
      (∀ k v, [(strL "k", strL "v1")].lookup k = none →
        [(strL "k", strL "v2"), (strL "k2", strL "w")].lookup k = some v →
        m.meta.lookup k = some v)) :=
  ⟨c3_register_merge.1 ([], []) (strL "https://example.org/item")
      (strL "meta") [] (strL "row_data") [],
   c3_register_merge.2
     ⟨strL "https://x.org/a", strL "meta", 3, [(strL "k", strL "v1")]⟩
     ⟨strL "https://x.org/a", strL "row_data", 2,
       [(strL "k", strL "v2"), (strL "k2", strL "w")]⟩
     (by decide) (by decide) (by decide) (by decide) (by decide) (by decide)⟩

end Scraper

namespace Scraper

/-- **C4 (counterexample)** — The profile URL
`https://scholar.google.com/citations?user=pdf123` points back to the Google
Scholar profile page yet scores 1 (the `"pdf"`-token rule fires first), not 9
as the claim's unconditional profile rule requires. -/
theorem c4_counterexample :
    _is_scholar_profile_link
        (strL "https://scholar.google.com/citations?user=pdf123") = true ∧
    _score_candidate
        (strL "https://scholar.google.com/citations?user=pdf123")
        (strL "detail") = 1 ∧
    (1 : Nat) ≠ 9 := by
  refine ⟨by decide, by decide, by decide⟩

/-- **C4 (amended)** — The scorer applies the policy table with first-match
precedence: `.pdf` extension or the scholar.googleusercontent.com full-text
host scores 0; otherwise a `"pdf"` token or a known open-access repository
domain scores 1; otherwise a Google Scholar profile/listing URL scores 9;
otherwise a candidate discovered by the raw attribute/embedded-link scan
(`row_data`/`data_clk`) scores 2; everything else scores 3. -/
theorem c4_score_policy (url source : Str) :
    ((endsWith (strL ".pdf") (lowerStr url) = true ∨
        isSubstr (strL "scholar.googleusercontent.com") (lowerStr url) = true) →
      _score_candidate url source = 0) ∧
    (endsWith (strL ".pdf") (lowerStr url) = false →
      isSubstr (strL "scholar.googleusercontent.com") (lowerStr url) = false →
      (isSubstr (strL "pdf") (lowerStr url) = true ∨
        repository_indicators.any (fun ind => isSubstr ind (lowerStr url)) = true) →
      _score_candidate url source = 1) ∧
    (endsWith (strL ".pdf") (lowerStr url) = false →
      isSubstr (strL "scholar.googleusercontent.com") (lowerStr url) = false →
      isSubstr (strL "pdf") (lowerStr url) = false →
      repository_indicators.any (fun ind => isSubstr ind (lowerStr url)) = false →
      _is_scholar_profile_link url = true →
      _score_candidate url source = 9) ∧
    (endsWith (strL ".pdf") (lowerStr url) = false →
      isSubstr (strL "scholar.googleusercontent.com") (lowerStr url) = false →
      isSubstr (strL "pdf") (lowerStr url) = false →
      repository_indicators.any (fun ind => isSubstr ind (lowerStr url)) = false →
      _is_scholar_profile_link url = false →
      (source = strL "row_data" ∨ source = strL "data_clk") →
      _score_candidate url source = 2) ∧
    (endsWith (strL ".pdf") (lowerStr url) = false →
      isSubstr (strL "scholar.googleusercontent.com") (lowerStr url) = false →
      isSubstr (strL "pdf") (lowerStr url) = false →
      repository_indicators.any (fun ind => isSubstr ind (lowerStr url)) = false →
      _is_scholar_profile_link url = false →
      ¬(source = strL "row_data" ∨ source = strL "data_clk") →
      _score_candidate url source = 3) := by
  refine ⟨?_, ?_, ?_, ?_, ?_⟩
  · rintro (h | h)
    · unfold _score_candidate
      rw [if_pos h]
    · by_cases he : endsWith (strL ".pdf") (lowerStr url) = true
      · unfold _score_candidate
        rw [if_pos he]
      · unfold _score_candidate
        rw [if_neg he, if_pos h]
  · intro h1 h2 h3
    rcases h3 with h3 | h3
    · unfold _score_candidate
      rw [if_neg (by simp [h1]), if_neg (by simp [h2]), if_pos h3]
    · by_cases hp : isSubstr (strL "pdf") (lowerStr url) = true
      · unfold _score_candidate
        rw [if_neg (by simp [h1]), if_neg (by simp [h2]), if_pos hp]
      · unfold _score_candidate
        rw [if_neg (by simp [h1]), if_neg (by simp [h2]), if_neg hp, if_pos h3]
  · intro h1 h2 h3 h4 h5
    unfold _score_candidate
    rw [if_neg (by simp [h1]), if_neg (by simp [h2]), if_neg (by simp [h3]),
      if_neg (by simp [h4]), if_pos h5]
  · intro h1 h2 h3 h4 h5 h6
    unfold _score_candidate
    rw [if_neg (by simp [h1]), if_neg (by simp [h2]), if_neg (by simp [h3]),
      if_neg (by simp [h4]), if_neg (by simp [h5]), if_pos h6]
  · intro h1 h2 h3 h4 h5 h6
    unfold _score_candidate
    rw [if_neg (by simp [h1]), if_neg (by simp [h2]), if_neg (by simp [h3]),
      if_neg (by simp [h4]), if_neg (by simp [h5]), if_neg h6]

/-- Witness for C4: one concrete URL per rule of the policy table. -/
theorem c4_score_policy_witness :
    _score_candidate (strL "https://a.org/x.pdf") (strL "detail") = 0 ∧
    _score_candidate (strL "https://a.org/pdfview") (strL "detail") = 1 ∧
    _score_candidate (strL "https://scholar.google.com/citations?user=aaa")
      (strL "detail") = 9 ∧
    _score_candidate (strL "https://a.org/x") (strL "row_data") = 2 ∧
    _score_candidate (strL "https://a.org/x") (strL "detail") = 3 :=
  ⟨(c4_score_policy (strL "https://a.org/x.pdf") (strL "detail")).1
      (Or.inl (by decide)),
   (c4_score_policy (strL "https://a.org/pdfview") (strL "detail")).2.1
      (by decide) (by decide) (Or.inl (by decide)),
   (c4_score_policy (strL "https://scholar.google.com/citations?user=aaa")
      (strL "detail")).2.2.1
      (by decide) (by decide) (by decide) (by decide) (by decide),
   (c4_score_policy (strL "https://a.org/x") (strL "row_data")).2.2.2.1
      (by decide) (by decide) (by decide) (by decide) (by decide)
      (Or.inl (by decide)),
   (c4_score_policy (strL "https://a.org/x") (strL "detail")).2.2.2.2
      (by decide) (by decide) (by decide) (by decide) (by decide) (by decide)⟩

end Scraper
